import Mathlib

/-!
Verification of the CLI-orchestrator reference implementation
(`references/orchestrator_example.py`).

The development shallowly embeds the Python module:

* `Json`, `dumpChars`, `json_dumps` — the structured values the orchestrator
  extracts from process output, together with a verbatim serialization
  (integer-fragment JSON: the float/exponent number forms are outside the model).
* `parseV` / `json_loads` — a model of `json.loads` restricted to that fragment
  (fuel-indexed recursive-descent; surrogate escapes are rejected because a
  Lean `Char` is a unicode scalar value).
* `extract_json_from_output`, `fencedBlocks`, `greedySub` — the three-strategy
  extraction pipeline, with the two `re.findall` patterns modelled directly:
  the fenced-block pattern as a left-to-right scanner with lazy closing and
  the greedy brace/bracket patterns as first-opener/last-closer slices.
* `build_command`, `invoke_sync`, `invoke_async`, `invoke_parallel` — command
  construction and the invocation paths.  Process execution is an environment
  oracle (`ExecEnv`); scheduler nondeterminism of the parallel path is an
  explicit completion order over task indices.
-/

/-! ## Characters that the banned-token discipline of source literals needs -/

def btick : Char := Char.ofNat 96

def lbrace : Char := Char.ofNat 123

def rbrace : Char := Char.ofNat 125

/-! ## JSON values (integer-number fragment) -/

inductive Json where
  | null : Json
  | bool : Bool → Json
  | num : Int → Json
  | str : String → Json
  | arr : List Json → Json
  | obj : List (String × Json) → Json

/-- Hex digit in lowercase, as `json.dumps` emits for control characters. -/
def hexDigit (n : Nat) : Char :=
  if n < 10 then Char.ofNat (48 + n) else Char.ofNat (87 + n)

/-- One serialized character of a JSON string body, following the escaping
rules of `json.dumps` (with `ensure_ascii=False`): quote, backslash and the
named control characters get two-character escapes, remaining control
characters get `\u00XX`, anything else is emitted verbatim. -/
def escChar (c : Char) : List Char :=
  if c = '"' then ['\\', '"']
  else if c = '\\' then ['\\', '\\']
  else if c = '\n' then ['\\', 'n']
  else if c = '\t' then ['\\', 't']
  else if c = '\r' then ['\\', 'r']
  else if c = Char.ofNat 8 then ['\\', 'b']
  else if c = Char.ofNat 12 then ['\\', 'f']
  else if c.toNat < 32 then
    ['\\', 'u', '0', '0', hexDigit (c.toNat / 16), hexDigit (c.toNat % 16)]
  else [c]

def escapeChars : List Char → List Char
  | [] => []
  | c :: cs => escChar c ++ escapeChars cs

def digitChar (n : Nat) : Char := Char.ofNat (48 + n)

/-- Decimal digits of `n`, most significant first; fuel-indexed so that the
kernel can evaluate it. -/
def natToCharsAux : Nat → Nat → List Char
  | 0, _ => []
  | fuel + 1, n =>
    if n < 10 then [digitChar n]
    else natToCharsAux fuel (n / 10) ++ [digitChar (n % 10)]

def natToChars (n : Nat) : List Char := natToCharsAux (n + 1) n

def intToChars (n : Int) : List Char :=
  if n < 0 then '-' :: natToChars n.natAbs else natToChars n.natAbs

-- Serialization mirroring `json.dumps` defaults: item separator `", "`,
-- key separator `": "`.
def boolChars : Bool → List Char
  | true => ['t', 'r', 'u', 'e']
  | false => ['f', 'a', 'l', 's', 'e']

mutual

def dumpChars : Json → List Char
  | .null => ['n', 'u', 'l', 'l']
  | .bool b => boolChars b
  | .num n => intToChars n
  | .str s => '"' :: (escapeChars s.data ++ ['"'])
  | .arr xs => '[' :: (dumpList xs ++ [']'])
  | .obj fs => lbrace :: (dumpObjList fs ++ [rbrace])

def dumpList : List Json → List Char
  | [] => []
  | [x] => dumpChars x
  | x :: y :: xs => dumpChars x ++ ',' :: ' ' :: dumpList (y :: xs)

def dumpObjList : List (String × Json) → List Char
  | [] => []
  | [(k, v)] => dumpItem k v
  | (k, v) :: f :: fs => dumpItem k v ++ ',' :: ' ' :: dumpObjList (f :: fs)

def dumpItem (k : String) (v : Json) : List Char :=
  '"' :: (escapeChars k.data ++ '"' :: ':' :: ' ' :: dumpChars v)

end

def json_dumps (v : Json) : String := ⟨dumpChars v⟩

/-! ## A model of `json.loads` on the integer fragment -/

def isWsChar (c : Char) : Bool :=
  c == ' ' || c == '\r' || c == '\t' || c == '\n'

def skipWs : List Char → List Char
  | [] => []
  | c :: cs => if isWsChar c then skipWs cs else c :: cs

def isDigitChar (c : Char) : Bool := 48 ≤ c.toNat && c.toNat ≤ 57

def hexVal (c : Char) : Option Nat :=
  if 48 ≤ c.toNat && c.toNat ≤ 57 then some (c.toNat - 48)
  else if 97 ≤ c.toNat && c.toNat ≤ 102 then some (c.toNat - 87)
  else if 65 ≤ c.toNat && c.toNat ≤ 70 then some (c.toNat - 55)
  else none

/-- Decode one escape sequence (the part after the backslash), returning
the denoted character and the remaining input.  Escapes `\u` naming a
surrogate are rejected (a Lean `Char` is a scalar value). -/
def unesc : List Char → Option (Char × List Char)
  | [] => none
  | e :: cs =>
    if e = '"' then some ('"', cs)
    else if e = '\\' then some ('\\', cs)
    else if e = '/' then some ('/', cs)
    else if e = 'b' then some (Char.ofNat 8, cs)
    else if e = 'f' then some (Char.ofNat 12, cs)
    else if e = 'n' then some ('\n', cs)
    else if e = 'r' then some ('\r', cs)
    else if e = 't' then some ('\t', cs)
    else if e = 'u' then
      match cs with
      | h1 :: h2 :: h3 :: h4 :: cs3 =>
        match hexVal h1, hexVal h2, hexVal h3, hexVal h4 with
        | some a, some b, some c2, some d =>
          let n := ((a * 16 + b) * 16 + c2) * 16 + d
          if 55296 ≤ n ∧ n ≤ 57343 then none
          else some (Char.ofNat n, cs3)
        | _, _, _, _ => none
      | _ => none
    else none

/-- Body of a JSON string, from just after the opening quote up to the
closing quote, fuel-indexed.  Strict mode: raw control characters are
rejected. -/
def parseStringBodyAux : Nat → List Char → Option (List Char × List Char)
  | 0, _ => none
  | _ + 1, [] => none
  | fuel + 1, c :: cs =>
    if c = '"' then some ([], cs)
    else if c = '\\' then
      match unesc cs with
      | none => none
      | some (ch, cs2) => (parseStringBodyAux fuel cs2).map (fun p => (ch :: p.1, p.2))
    else if c.toNat < 32 then none
    else (parseStringBodyAux fuel cs).map (fun p => (c :: p.1, p.2))

def parseStringBody (cs : List Char) : Option (List Char × List Char) :=
  parseStringBodyAux (cs.length + 1) cs

def consumeDigits : Nat → List Char → Nat × List Char
  | acc, [] => (acc, [])
  | acc, c :: cs =>
    if isDigitChar c then consumeDigits (acc * 10 + (c.toNat - 48)) cs
    else (acc, c :: cs)

def parseDigits : List Char → Option (Nat × List Char)
  | [] => none
  | c :: cs => if isDigitChar c then some (consumeDigits 0 (c :: cs)) else none

mutual

def parseV : Nat → List Char → Option (Json × List Char)
  | 0, _ => none
  | _ + 1, [] => none
  | fuel + 1, c :: cs =>
    if c = '"' then (parseStringBody cs).map (fun p => (.str ⟨p.1⟩, p.2))
    else if c = '[' then
      match skipWs cs with
      | [] => none
      | d :: r => if d = ']' then some (.arr [], r)
                  else (parseItems fuel (d :: r)).map (fun p => (.arr p.1, p.2))
    else if c = lbrace then
      match skipWs cs with
      | [] => none
      | d :: r => if d = rbrace then some (.obj [], r)
                  else (parseMembers fuel (d :: r)).map (fun p => (.obj p.1, p.2))
    else if c = 't' then
      if ['r', 'u', 'e'].isPrefixOf cs then some (.bool true, cs.drop 3) else none
    else if c = 'f' then
      if ['a', 'l', 's', 'e'].isPrefixOf cs then some (.bool false, cs.drop 4) else none
    else if c = 'n' then
      if ['u', 'l', 'l'].isPrefixOf cs then some (.null, cs.drop 3) else none
    else if c = '-' then (parseDigits cs).map (fun p => (.num (-(p.1 : Int)), p.2))
    else if isDigitChar c then (parseDigits (c :: cs)).map (fun p => (.num (p.1 : Int), p.2))
    else none

def parseItems : Nat → List Char → Option (List Json × List Char)
  | 0, _ => none
  | fuel + 1, cs =>
    match parseV fuel cs with
    | none => none
    | some (v, r) =>
      match skipWs r with
      | [] => none
      | d :: r2 =>
        if d = ',' then (parseItems fuel (skipWs r2)).map (fun p => (v :: p.1, p.2))
        else if d = ']' then some ([v], r2)
        else none

def parseMembers : Nat → List Char → Option (List (String × Json) × List Char)
  | 0, _ => none
  | fuel + 1, cs =>
    match cs with
    | [] => none
    | q :: cs1 =>
      if q = '"' then
        match parseStringBody cs1 with
        | none => none
        | some (k, r1) =>
          match skipWs r1 with
          | [] => none
          | d0 :: r2 =>
            if d0 = ':' then
              match parseV fuel (skipWs r2) with
              | none => none
              | some (v, r3) =>
                match skipWs r3 with
                | [] => none
                | d :: r4 =>
                  if d = ',' then
                    (parseMembers fuel (skipWs r4)).map (fun p => ((⟨k⟩, v) :: p.1, p.2))
                  else if d = rbrace then some ([(⟨k⟩, v)], r4)
                  else none
            else none
      else none

end

/-- Model of `json.loads`, restricted to the integer fragment: skip surrounding
whitespace, parse one value, require the remainder to be whitespace. -/
def json_loads (s : String) : Option Json :=
  match parseV (s.data.length + 1) (skipWs s.data) with
  | some (v, rest) => if (skipWs rest).isEmpty then some v else none
  | none => none

/-! ## The three extraction strategies of `extract_json_from_output` -/

/-- Whitespace class `\s` of the `re` module, over the ASCII range the source exercises. -/
def isRegexWs (c : Char) : Bool :=
  c == Char.ofNat 11 || c == Char.ofNat 12 || c == ' ' ||
    c == '\r' || c == '\t' || c == '\n'

def wsRunLen : List Char → Nat
  | [] => 0
  | c :: cs => if isRegexWs c then wsRunLen cs + 1 else 0

/-- Index of the last newline inside the first `w` characters. -/
def lastNewlineBefore (cs : List Char) (w : Nat) : Option Nat :=
  ((cs.take w).reverse.findIdx? (fun c => c == '\n')).map (fun k => w - 1 - k)

def dropJsonTag (cs : List Char) : List Char :=
  if ['j', 's', 'o', 'n'].isPrefixOf cs then cs.drop 4 else cs

/-- Lazy part of the fenced pattern: the shortest text followed by a
newline and three backticks; also returns what follows the close fence. -/
def splitAtClose : List Char → Option (List Char × List Char)
  | [] => none
  | c :: cs =>
    if c = '\n' && [btick, btick, btick].isPrefixOf cs then some ([], cs.drop 3)
    else (splitAtClose cs).map (fun p => (c :: p.1, p.2))

/-- Match attempt at a position right after an opening triple backtick,
per the pattern `(three backticks)(?:json)?\s*\n(lazy capture)\n(three
backticks)`: optionally drop the `json` tag, take the maximal whitespace
run, and use its last newline as the start of the capture. -/
def fenceAfterTicks (cs : List Char) : Option (List Char × List Char) :=
  let cs1 := dropJsonTag cs
  match lastNewlineBefore cs1 (wsRunLen cs1) with
  | none => none
  | some l => splitAtClose (cs1.drop (l + 1))

/-- Left-to-right non-overlapping scan of `re.findall` for the fenced
pattern: on a failed attempt the start position advances one character, on
success it advances past the closing fence. -/
def fencedAux : Nat → List Char → List (List Char)
  | 0, _ => []
  | fuel + 1, cs =>
    match cs with
    | [] => []
    | c :: cs1 =>
      if c = btick && [btick, btick].isPrefixOf cs1 then
        match fenceAfterTicks (cs1.drop 2) with
        | some (cap, rest) => cap :: fencedAux fuel rest
        | none => fencedAux fuel cs1
      else fencedAux fuel cs1

def fencedBlocks (s : String) : List String :=
  (fencedAux s.data.length s.data).map (fun cs => ⟨cs⟩)

/-- Model of `re.findall` for the greedy patterns `(\{[\s\S]*\})` and
`([\[][\s\S]*[\]])`: at most one match, spanning the first opener to the
last closer when the opener comes first. -/
def greedySub (a b : Char) (cs : List Char) : List (List Char) :=
  match cs.findIdx? (fun c => c == a), cs.reverse.findIdx? (fun c => c == b) with
  | some i, some k =>
    let j := cs.length - 1 - k
    if i < j then [(cs.drop i).take (j - i + 1)] else []
  | _, _ => []

def greedyCandidates (s : String) : List String :=
  (greedySub lbrace rbrace s.data ++ greedySub '[' ']' s.data).map (fun cs => ⟨cs⟩)

/-- Whitespace set of Python `str.strip()` (ASCII range). -/
def dropPyWs : List Char → List Char
  | [] => []
  | c :: cs => if isRegexWs c then dropPyWs cs else c :: cs

def pyStrip (s : String) : String :=
  ⟨dropPyWs ((dropPyWs s.data.reverse).reverse)⟩

/-- First candidate that parses, mirroring the per-strategy
`try/except JSONDecodeError: continue` loops. -/
def tryAll : List String → Option Json
  | [] => none
  | s :: rest =>
    match json_loads s with
    | some v => some v
    | none => tryAll rest

/-- Model of `CLIOrchestrator.extract_json_from_output`: empty output short-circuits;
then whole-text parse, then fenced blocks (stripped), then the greedy brace
slice followed by the greedy bracket slice.  Total by construction — parse
failures select the next strategy rather than escaping. -/
def extract_json_from_output (output : String) : Option Json :=
  if output = "" then none
  else
    match json_loads output with
    | some v => some v
    | none =>
      match tryAll ((fencedBlocks output).map pyStrip) with
      | some v => some v
      | none => tryAll (greedyCandidates output)

/-! ## Orchestrator data model -/

inductive InvocationStatus where
  | success : InvocationStatus
  | failed : InvocationStatus
  | timeout : InvocationStatus
  | fallback : InvocationStatus
deriving DecidableEq, BEq

structure CLIInvocationResult where
  status : InvocationStatus
  tool : String
  output : String
  parsed_json : Option Json
  duration_ms : Nat
  returncode : Int
  error : Option String
  fallback_used : Bool
  command : List String

/-- Configuration fields of `CLIOrchestrator` (the `project_dir` field is a
filesystem handle the invocation paths never consult and is omitted). -/
structure CLIOrchestrator where
  primary_cli : String
  fallback_cli : Option String
  default_timeout : Nat

def defaultOrchestrator : CLIOrchestrator :=
  { primary_cli := "claude", fallback_cli := some "opencode", default_timeout := 600 }

def DEFAULT_ALLOWED_TOOLS : List String :=
  ["Write", "Read", "Edit", "Glob", "Grep", "LS",
   "Bash", "Task", "Skill",
   "WebFetch", "WebSearch",
   "mcp__perplexity-ask__perplexity_ask",
   "mcp__context7__resolve-library-id",
   "mcp__context7__get-library-docs",
   "mcp__brave-search__brave_web_search"]

def optFlag (flag : String) : Option String → List String
  | some v => [flag, v]
  | none => []

def pairFlags (flag : String) : Option (List String) → List String
  | some vs => vs.flatMap (fun v => [flag, v])
  | none => []

/-- Model of `CLIOrchestrator.build_command`.  The `tool == "opencode"` branch returns
early; the primary branch accumulates option flags and then either appends a
bare `-p` with the prompt moved to stdin behind the `/sandbox` directive, or
appends `-p` followed by the prompt. -/
def build_command (tool prompt : String) (model : Option String)
    (allowed_tools : Option (List String)) (add_dirs : Option (List String))
    (settings_json : Option String) (enable_sandbox : Bool) :
    List String × Option String :=
  if tool = "opencode" then
    (["opencode", "run"] ++ optFlag "--model" model ++ [prompt], none)
  else
    let cmd := ["claude"] ++ optFlag "--model" model
      ++ optFlag "--settings" settings_json
      ++ pairFlags "--add-dir" add_dirs
      ++ pairFlags "--allowedTools" allowed_tools
    if enable_sandbox then (cmd ++ ["-p"], some ("/sandbox\n" ++ prompt))
    else (cmd ++ ["-p", prompt], none)

/-! ## Process execution as an environment oracle -/

/-- What the operating system does with one spawned process: it either runs
to completion (exit code, captured stdout/stderr) or is still running when
the timeout expires (with whatever partial output it produced so far).
The final component is the measured wall-clock duration in milliseconds. -/
inductive ProcOutcome where
  | completed : Int → String → String → Nat → ProcOutcome
  | timedOut : String → String → Nat → ProcOutcome

/-- Environment oracle: the outcome of executing an argument vector with an
optional stdin payload, a timeout, and an optional working directory. -/
structure ExecEnv where
  run : List String → Option String → Nat → Option String → ProcOutcome

def constEnv (oc : ProcOutcome) : ExecEnv := ⟨fun _ _ _ _ => oc⟩

/-- State of the child process at the moment the invocation returns.
`subprocess.run` kills and reaps its child when `TimeoutExpired` is raised,
so the synchronous path always ends with `exited`.  The asynchronous path's
`except TimeoutError` handler builds its result without calling
`process.kill`/`terminate`, and `asyncio.wait_for` cancelling
`communicate()` stops the reads, not the child — so there the child is
still `running`. -/
inductive ChildState where
  | exited : ChildState
  | running : ChildState
deriving DecidableEq

/-- Python falsy-or on an optional string (`x or dflt`). -/
def orElseStr (x : Option String) (dflt : String) : String :=
  match x with
  | some s => if s = "" then dflt else s
  | none => dflt

def orElseNat (x : Option Nat) (dflt : Nat) : Nat :=
  match x with
  | some n => if n = 0 then dflt else n
  | none => dflt

def orElseList (x : Option (List String)) (dflt : List String) : List String :=
  match x with
  | some l => if l = [] then dflt else l
  | none => dflt

def timeoutMessage (t : Nat) : String := "Timeout after " ++ toString t ++ "s"

/-- Model of `CLIOrchestrator.invoke_sync`. -/
def invoke_sync (o : CLIOrchestrator) (env : ExecEnv) (prompt : String)
    (tool : Option String) (timeout : Option Nat) (working_dir : Option String)
    (allowed_tools : Option (List String)) : CLIInvocationResult :=
  let tool := orElseStr tool o.primary_cli
  let timeout := orElseNat timeout o.default_timeout
  let allowed_tools := orElseList allowed_tools DEFAULT_ALLOWED_TOOLS
  let bc := build_command tool prompt none
    (if tool = "claude" then some allowed_tools else none) none none false
  match env.run bc.1 bc.2 timeout working_dir with
  | .completed rc out err d =>
    if rc = 0 then
      { status := .success, tool := tool, output := out,
        parsed_json := extract_json_from_output out, duration_ms := d,
        returncode := rc, error := none, fallback_used := false, command := bc.1 }
    else
      { status := .failed, tool := tool, output := out, parsed_json := none,
        duration_ms := d, returncode := rc, error := some err,
        fallback_used := false, command := bc.1 }
  | .timedOut _ _ d =>
      { status := .timeout, tool := tool, output := "", parsed_json := none,
        duration_ms := d, returncode := -1, error := some (timeoutMessage timeout),
        fallback_used := false, command := bc.1 }

/-- Model of `CLIOrchestrator.invoke_async`.  Spawn failures propagate as exceptions
in the source (only `TimeoutError` is caught) and are outside the returned
results this models.  The pipe is opened only for a truthy stdin payload.
The second component records whether the child was reaped when the result
was produced; see `ChildState`. -/
def invoke_async (o : CLIOrchestrator) (env : ExecEnv) (prompt : String)
    (tool : Option String) (timeout : Option Nat) (working_dir : Option String)
    (allowed_tools : Option (List String)) : CLIInvocationResult × ChildState :=
  let tool := orElseStr tool o.primary_cli
  let timeout := orElseNat timeout o.default_timeout
  let allowed_tools := orElseList allowed_tools DEFAULT_ALLOWED_TOOLS
  let bc := build_command tool prompt none
    (if tool = "claude" then some allowed_tools else none) none none false
  let stdinArg := match bc.2 with
    | some s => if s = "" then none else some s
    | none => none
  match env.run bc.1 stdinArg timeout working_dir with
  | .completed rc out err d =>
    if rc = 0 then
      ({ status := .success, tool := tool, output := out,
         parsed_json := extract_json_from_output out, duration_ms := d,
         returncode := rc, error := none, fallback_used := false,
         command := bc.1 }, .exited)
    else
      ({ status := .failed, tool := tool, output := out, parsed_json := none,
         duration_ms := d, returncode := rc, error := some err,
         fallback_used := false, command := bc.1 }, .exited)
  | .timedOut _ _ d =>
      ({ status := .timeout, tool := tool, output := "", parsed_json := none,
         duration_ms := d, returncode := -1, error := some (timeoutMessage timeout),
         fallback_used := false, command := bc.1 }, .running)

/-- The result component of `invoke_async` at the defaulted arguments used
by `invoke_parallel`'s `invoke_with_limit`. -/
def asyncResult (o : CLIOrchestrator) (env : ExecEnv) (prompt : String) :
    CLIInvocationResult :=
  (invoke_async o env prompt none none none none).1

/-! ## Parallel dispatch: `asyncio.gather` over a completion order -/

/-- Fill the index-aligned result buffer in completion order: task `i`
finishing writes its own result at slot `i`, exactly how `gather` pairs
results with the task list rather than with completion sequence. -/
def fillBuffer {α : Type} (f : Nat → α) : List Nat → List (Option α) → List (Option α)
  | [], buf => buf
  | i :: rest, buf => fillBuffer f rest (buf.set i (some (f i)))

/-- The gather returns once every slot is filled; a buffer with a hole means
the corresponding task has not completed, so no result list exists yet. -/
def collectSome {α : Type} : List (Option α) → Option (List α)
  | [] => some []
  | some x :: rest => (collectSome rest).map (fun l => x :: l)
  | none :: _ => none

/-- Model of `CLIOrchestrator.invoke_parallel`.  Here `order` is the completion order of
the underlying tasks — the scheduler nondeterminism the semaphore
constrains but the result list must not depend on.  `Semaphore(0)` lets no
task acquire a permit, so with cap `0` the gather never completes (`none`);
likewise an `order` that misses an index models a task that has not
finished. -/
def invoke_parallel (o : CLIOrchestrator) (env : ExecEnv) (prompts : List String)
    (max_concurrent : Nat) (order : List Nat) : Option (List CLIInvocationResult) :=
  if max_concurrent = 0 then none
  else
    collectSome (fillBuffer (fun i => asyncResult o env (prompts.getD i ""))
      order (List.replicate prompts.length none))

/-! ## Small character lemmas -/

theorem digitChar_toNat {n : Nat} (h : n < 10) : (digitChar n).toNat = 48 + n := by
  interval_cases n <;> decide

theorem isDigitChar_digitChar {n : Nat} (h : n < 10) : isDigitChar (digitChar n) = true := by
  simp [isDigitChar, digitChar_toNat h]; omega

theorem digit_toNat_bounds {c : Char} (h : isDigitChar c = true) :
    48 ≤ c.toNat ∧ c.toNat ≤ 57 := by
  simpa [isDigitChar] using h

theorem isWsChar_toNat {c : Char} (h : isWsChar c = true) :
    c.toNat = 32 ∨ c.toNat = 9 ∨ c.toNat = 10 ∨ c.toNat = 13 := by
  simp only [isWsChar, Bool.or_eq_true, beq_iff_eq] at h
  rcases h with (((rfl | rfl) | rfl) | rfl) <;> decide

theorem digit_not_ws {c : Char} (h : isDigitChar c = true) : isWsChar c = false := by
  have hb := digit_toNat_bounds h
  cases hw : isWsChar c with
  | false => rfl
  | true => exact absurd (isWsChar_toNat hw) (by omega)

theorem digit_ne_rbracket {c : Char} (h : isDigitChar c = true) : ¬(c = ']') := by
  have hb := digit_toNat_bounds h
  rintro rfl; revert hb; decide

/-- Characters a serialized JSON value can start with. -/
def goodStart (c : Char) : Bool :=
  c == '"' || c == '[' || c == lbrace || c == 't' || c == 'f' || c == 'n' ||
    c == '-' || isDigitChar c

theorem goodStart_cases {c : Char} (h : goodStart c = true) :
    c = '"' ∨ c = '[' ∨ c = lbrace ∨ c = 't' ∨ c = 'f' ∨ c = 'n' ∨ c = '-' ∨
      isDigitChar c = true := by
  simpa [goodStart, Bool.or_eq_true, beq_iff_eq, or_assoc] using h

theorem goodStart_not_ws {c : Char} (h : goodStart c = true) : isWsChar c = false := by
  rcases goodStart_cases h with rfl | rfl | rfl | rfl | rfl | rfl | rfl | hd
  · decide
  · decide
  · decide
  · decide
  · decide
  · decide
  · decide
  · exact digit_not_ws hd

theorem goodStart_ne_rbracket {c : Char} (h : goodStart c = true) : ¬(c = ']') := by
  rcases goodStart_cases h with rfl | rfl | rfl | rfl | rfl | rfl | rfl | hd
  · decide
  · decide
  · decide
  · decide
  · decide
  · decide
  · decide
  · exact digit_ne_rbracket hd

theorem skipWs_not_ws {c : Char} (h : isWsChar c = false) (cs : List Char) :
    skipWs (c :: cs) = c :: cs := by
  simp [skipWs, h]

/-! ## Induction principle for the nested inductive `Json` -/

def Json.recAll (P : Json → Prop)
    (h1 : P .null) (h2 : ∀ b, P (.bool b)) (h3 : ∀ n, P (.num n))
    (h4 : ∀ s, P (.str s))
    (h5 : ∀ xs, (∀ x ∈ xs, P x) → P (.arr xs))
    (h6 : ∀ fs, (∀ kv ∈ fs, P kv.2) → P (.obj fs)) : ∀ v, P v
  | .null => h1
  | .bool b => h2 b
  | .num n => h3 n
  | .str s => h4 s
  | .arr xs => h5 xs (fun x hx => Json.recAll P h1 h2 h3 h4 h5 h6 x)
  | .obj fs => h6 fs (fun kv hkv => Json.recAll P h1 h2 h3 h4 h5 h6 kv.2)
termination_by v => sizeOf v
decreasing_by
  · have := List.sizeOf_lt_of_mem hx
    simp only [Json.arr.sizeOf_spec]
    omega
  · have h := List.sizeOf_lt_of_mem hkv
    have h2 : sizeOf kv.2 < sizeOf kv := by
      obtain ⟨a, b⟩ := kv
      simp only [Prod.mk.sizeOf_spec]
      omega
    simp only [Json.obj.sizeOf_spec]
    omega

/-! ## Number roundtrip -/

theorem natToCharsAux_head (fuel n : Nat) (h : n < fuel) :
    ∃ c t, natToCharsAux fuel n = c :: t ∧ isDigitChar c = true := by
  induction fuel generalizing n with
  | zero => omega
  | succ fuel ih =>
    by_cases h10 : n < 10
    · exact ⟨digitChar n, [], by simp [natToCharsAux, h10], isDigitChar_digitChar h10⟩
    · have hd : n / 10 < fuel := by omega
      obtain ⟨c, t, hc, hdig⟩ := ih _ hd
      exact ⟨c, t ++ [digitChar (n % 10)], by simp [natToCharsAux, h10, hc], hdig⟩

theorem natToChars_head (n : Nat) :
    ∃ c t, natToChars n = c :: t ∧ isDigitChar c = true :=
  natToCharsAux_head (n + 1) n (by omega)

theorem consumeDigits_stop {rest : List Char}
    (h : ∀ c t, rest = c :: t → isDigitChar c = false) (acc : Nat) :
    consumeDigits acc rest = (acc, rest) := by
  cases rest with
  | nil => rfl
  | cons c t => simp [consumeDigits, h c t rfl]

theorem consumeDigits_natToCharsAux (fuel n : Nat) (h : n < fuel) :
    ∀ acc rest, ∃ M, consumeDigits acc (natToCharsAux fuel n ++ rest) =
      consumeDigits (acc * M + n) rest ∧ 0 < M := by
  induction fuel generalizing n with
  | zero => omega
  | succ fuel ih =>
    intro acc rest
    by_cases h10 : n < 10
    · refine ⟨10, ?_, by omega⟩
      simp [natToCharsAux, h10, consumeDigits, isDigitChar_digitChar h10,
        digitChar_toNat h10]
    · have hd : n / 10 < fuel := by omega
      obtain ⟨M, hM, hMpos⟩ := ih _ hd acc (digitChar (n % 10) :: rest)
      refine ⟨M * 10, ?_, by omega⟩
      have h9 : n % 10 < 10 := by omega
      simp only [natToCharsAux, h10, if_false, List.append_assoc, List.cons_append,
        List.nil_append]
      rw [hM]
      have : consumeDigits (acc * M + n / 10) (digitChar (n % 10) :: rest) =
          consumeDigits ((acc * M + n / 10) * 10 + (n % 10)) rest := by
        simp [consumeDigits, isDigitChar_digitChar h9, digitChar_toNat h9]
      rw [this]
      congr 1
      have : n / 10 * 10 + n % 10 = n := by omega
      ring_nf
      omega

theorem parseDigits_natToChars (n : Nat) {rest : List Char}
    (h : ∀ c t, rest = c :: t → isDigitChar c = false) :
    parseDigits (natToChars n ++ rest) = some (n, rest) := by
  obtain ⟨c, t, hc, hdig⟩ := natToChars_head n
  obtain ⟨M, hM0, hMpos⟩ := consumeDigits_natToCharsAux (n + 1) n (by omega) 0 rest
  have hM : consumeDigits 0 (natToChars n ++ rest) = consumeDigits (0 * M + n) rest := hM0
  rw [hc] at hM ⊢
  simp only [List.cons_append, parseDigits, hdig, if_true]
  rw [show (c :: (t ++ rest)) = (c :: t) ++ rest from rfl, hM]
  simp [consumeDigits_stop h]

/-! ## String-body roundtrip -/

theorem hexVal_hexDigit {n : Nat} (h : n < 16) : hexVal (hexDigit n) = some n := by
  interval_cases n <;> decide

theorem escChar_length_pos (c : Char) : 1 ≤ (escChar c).length := by
  unfold escChar
  split_ifs <;> simp

theorem parseStringBodyAux_escape : ∀ (s : List Char) (fuel : Nat) (rest : List Char),
    (escapeChars s).length < fuel →
    parseStringBodyAux fuel (escapeChars s ++ '"' :: rest) = some (s, rest) := by
  intro s
  induction s with
  | nil =>
    intro fuel rest h
    cases fuel with
    | zero => omega
    | succ f => rfl
  | cons c s ih =>
    intro fuel rest h
    have hec := escChar_length_pos c
    have hlen : (escapeChars (c :: s)).length = (escChar c).length + (escapeChars s).length := by
      simp [escapeChars]
    cases fuel with
    | zero => omega
    | succ f =>
    have hrec : (escapeChars s).length < f := by omega
    have ihf := ih f rest hrec
    show parseStringBodyAux (f + 1) ((escChar c ++ escapeChars s) ++ '"' :: rest) = _
    rw [List.append_assoc]
    by_cases h1 : c = '"'
    · subst h1; simp [escChar, parseStringBodyAux, unesc, ihf]
    · by_cases h2 : c = '\\'
      · subst h2; simp [escChar, parseStringBodyAux, unesc, ihf]
      · by_cases h3 : c = '\n'
        · subst h3; simp [escChar, parseStringBodyAux, unesc, ihf]
        · by_cases h4 : c = '\t'
          · subst h4; simp [escChar, parseStringBodyAux, unesc, ihf]
          · by_cases h5 : c = '\r'
            · subst h5; simp [escChar, parseStringBodyAux, unesc, ihf]
            · by_cases h6 : c = Char.ofNat 8
              · subst h6; simp [escChar, parseStringBodyAux, unesc, ihf]
              · by_cases h7 : c = Char.ofNat 12
                · subst h7; simp [escChar, parseStringBodyAux, unesc, ihf]
                · by_cases h8 : c.toNat < 32
                  · obtain ⟨n, hn32, rfl⟩ : ∃ n, n < 32 ∧ c = Char.ofNat n :=
                      ⟨c.toNat, h8, (Char.ofNat_toNat c).symm⟩
                    interval_cases n <;>
                      first
                        | exact absurd (by decide) h3
                        | exact absurd (by decide) h4
                        | exact absurd (by decide) h5
                        | exact absurd (by decide) h6
                        | exact absurd (by decide) h7
                        | simp [escChar, parseStringBodyAux, unesc, hexVal_hexDigit, hexDigit, hexVal, ihf]
                  · simp only [escChar, h1, h2, h3, h4, h5, h6, h7, h8, if_false,
                      List.cons_append, List.nil_append]
                    rw [parseStringBodyAux.eq_def]
                    simp [h1, h2, h8, ihf]

theorem parseStringBody_escape (s rest : List Char) :
    parseStringBody (escapeChars s ++ '"' :: rest) = some (s, rest) := by
  apply parseStringBodyAux_escape
  simp
  omega

/-! ## Fuel accounting for the value parser -/

mutual

def fuelNeed : Json → Nat
  | .arr xs => 1 + itemsFuel xs
  | .obj fs => 1 + membersFuel fs
  | _ => 1

def itemsFuel : List Json → Nat
  | [] => 0
  | x :: xs => 1 + max (fuelNeed x) (itemsFuel xs)

def membersFuel : List (String × Json) → Nat
  | [] => 0
  | kv :: fs => 1 + max (fuelNeed kv.2) (membersFuel fs)

end

theorem dumpChars_head (v : Json) :
    ∃ c t, dumpChars v = c :: t ∧ goodStart c = true := by
  cases v with
  | null => exact ⟨'n', ['u', 'l', 'l'], by simp [dumpChars], by decide⟩
  | bool b => cases b with
    | true => exact ⟨'t', ['r', 'u', 'e'], by simp [dumpChars, boolChars], by decide⟩
    | false => exact ⟨'f', ['a', 'l', 's', 'e'], by simp [dumpChars, boolChars], by decide⟩
  | num n =>
    by_cases hn : n < 0
    · refine ⟨'-', natToChars n.natAbs, ?_, by decide⟩
      simp [dumpChars, intToChars, hn]
    · obtain ⟨c, t, hc, hd⟩ := natToChars_head n.natAbs
      refine ⟨c, t ++ [], ?_, by simp [goodStart, hd]⟩
      simp [dumpChars, intToChars, hn, hc]
  | str s => exact ⟨'"', escapeChars s.data ++ ['"'], by simp [dumpChars], by decide⟩
  | arr xs => exact ⟨'[', dumpList xs ++ [']'], by simp [dumpChars], by decide⟩
  | obj fs => exact ⟨lbrace, dumpObjList fs ++ [rbrace], by simp [dumpChars], by decide⟩

/-! ## Main parse/serialize roundtrip -/

def noDigitHead (cs : List Char) : Prop :=
  ∀ c t, cs = c :: t → isDigitChar c = false

theorem noDigitHead_nil : noDigitHead [] := by
  intro c t h
  cases h

theorem noDigitHead_cons {c : Char} (t : List Char) (h : isDigitChar c = false) :
    noDigitHead (c :: t) := by
  intro c' t' he
  injection he with h1 h2
  subst h1
  exact h

theorem dumpList_head (x : Json) (xs : List Json) :
    ∃ c t, dumpList (x :: xs) = c :: t ∧ goodStart c = true := by
  obtain ⟨c, t, hc, hgs⟩ := dumpChars_head x
  cases xs with
  | nil => exact ⟨c, t, by simp [dumpList, hc], hgs⟩
  | cons y ys =>
    exact ⟨c, t ++ ',' :: ' ' :: dumpList (y :: ys), by simp [dumpList, hc], hgs⟩

theorem dumpObjList_head (kv : String × Json) (fs : List (String × Json)) :
    ∃ t, dumpObjList (kv :: fs) = '"' :: t := by
  obtain ⟨k, v⟩ := kv
  cases fs with
  | nil =>
    exact ⟨escapeChars k.data ++ '"' :: ':' :: ' ' :: dumpChars v,
      by simp [dumpObjList, dumpItem]⟩
  | cons g gs =>
    exact ⟨escapeChars k.data ++ '"' :: ':' :: ' ' ::
      (dumpChars v ++ ',' :: ' ' :: dumpObjList (g :: gs)),
      by simp [dumpObjList, dumpItem]⟩

theorem isDigitChar_comma : isDigitChar ',' = false := by decide

theorem isDigitChar_rbrace : isDigitChar rbrace = false := by decide

theorem isDigitChar_rbracket : isDigitChar ']' = false := by decide

theorem skipWs_space (cs : List Char) : skipWs (' ' :: cs) = skipWs cs := by
  simp [skipWs, isWsChar]

/-- Digits route through the final numeric branch of the parser dispatch. -/
theorem digit_route {c : Char} (h : isDigitChar c = true) :
    c ≠ '"' ∧ c ≠ '[' ∧ c ≠ lbrace ∧ c ≠ 't' ∧ c ≠ 'f' ∧ c ≠ 'n' ∧ c ≠ '-' := by
  have hb := digit_toNat_bounds h
  refine ⟨?_, ?_, ?_, ?_, ?_, ?_, ?_⟩ <;> rintro rfl <;> revert hb <;> decide

theorem parseV_dump_null (fuel : Nat) (rest : List Char) (hf : 1 ≤ fuel) :
    parseV fuel (dumpChars .null ++ rest) = some (.null, rest) := by
  cases fuel with
  | zero => omega
  | succ f =>
    simp only [dumpChars, List.cons_append, List.nil_append]
    rw [parseV.eq_def]
    simp [List.isPrefixOf, (by decide : ¬('n' = lbrace))]

theorem parseV_dump_bool (b : Bool) (fuel : Nat) (rest : List Char) (hf : 1 ≤ fuel) :
    parseV fuel (dumpChars (.bool b) ++ rest) = some (.bool b, rest) := by
  cases fuel with
  | zero => omega
  | succ f =>
    cases b <;>
      (simp only [dumpChars, boolChars, List.cons_append, List.nil_append]
       rw [parseV.eq_def]
       simp [List.isPrefixOf, (by decide : ¬('t' = lbrace)),
         (by decide : ¬('f' = lbrace))])

theorem parseV_dump_num (n : Int) (fuel : Nat) (rest : List Char) (hf : 1 ≤ fuel)
    (hr : noDigitHead rest) :
    parseV fuel (dumpChars (.num n) ++ rest) = some (.num n, rest) := by
  cases fuel with
  | zero => omega
  | succ f =>
    have hdig : parseDigits (natToChars n.natAbs ++ rest) = some (n.natAbs, rest) :=
      parseDigits_natToChars n.natAbs hr
    rcases lt_or_ge n 0 with hn | hn
    · have hform : dumpChars (.num n) = '-' :: natToChars n.natAbs := by
        simp [dumpChars, intToChars, hn]
      rw [hform]
      simp only [List.cons_append]
      rw [parseV.eq_def]
      simp [(by decide : ¬('-' = lbrace)), hdig, abs_of_neg hn]
    · obtain ⟨c0, t0, hc0, hd0⟩ := natToChars_head n.natAbs
      obtain ⟨r1, r2, r3, r4, r5, r6, r7⟩ := digit_route hd0
      have hnn : ¬n < 0 := by omega
      have hform : dumpChars (.num n) = c0 :: t0 := by
        simp [dumpChars, intToChars, hnn, hc0]
      rw [hc0] at hdig
      rw [hform]
      simp only [List.cons_append]
      rw [parseV.eq_def]
      simp [r1, r2, r3, r4, r5, r6, r7, hd0]
      exact ⟨n.natAbs, hdig, by omega⟩

theorem parseV_dump_str (s : String) (fuel : Nat) (rest : List Char) (hf : 1 ≤ fuel) :
    parseV fuel (dumpChars (.str s) ++ rest) = some (.str s, rest) := by
  cases fuel with
  | zero => omega
  | succ f =>
    have hsb := parseStringBody_escape s.data rest
    simp only [dumpChars, List.cons_append, List.append_assoc, List.nil_append]
    rw [parseV.eq_def]
    simp [hsb]

theorem parseItems_dumpList :
    ∀ (ys : List Json),
      (∀ y ∈ ys, ∀ fuel rest, fuelNeed y ≤ fuel → noDigitHead rest →
        parseV fuel (dumpChars y ++ rest) = some (y, rest)) →
      ys ≠ [] →
      ∀ fuel rest, itemsFuel ys ≤ fuel →
        parseItems fuel (dumpList ys ++ ']' :: rest) = some (ys, rest) := by
  intro ys
  induction ys with
  | nil => intro _ hne; exact absurd rfl hne
  | cons y ys ih =>
    intro hy hne fuel rest hfl
    cases fuel with
    | zero => simp [itemsFuel] at hfl
    | succ f =>
      have hyy := hy y (List.mem_cons_self y ys)
      have hfy : fuelNeed y ≤ f := by simp [itemsFuel] at hfl; omega
      cases ys with
      | nil =>
        have h1 : parseV f (dumpChars y ++ ']' :: rest) = some (y, ']' :: rest) :=
          hyy f (']' :: rest) hfy (noDigitHead_cons _ isDigitChar_rbracket)
        rw [show dumpList [y] = dumpChars y from by simp [dumpList]]
        rw [parseItems.eq_def]
        simp [h1, skipWs_not_ws (by decide : isWsChar ']' = false)]
      | cons z zs =>
        have hzs : itemsFuel (z :: zs) ≤ f := by simp [itemsFuel] at hfl ⊢; omega
        have h1 : parseV f (dumpChars y ++ ',' :: ' ' :: (dumpList (z :: zs) ++ ']' :: rest))
            = some (y, ',' :: ' ' :: (dumpList (z :: zs) ++ ']' :: rest)) :=
          hyy f _ hfy (noDigitHead_cons _ isDigitChar_comma)
        obtain ⟨c1, t1, hc1, hg1⟩ := dumpList_head z zs
        have hskip : skipWs (dumpList (z :: zs) ++ ']' :: rest)
            = dumpList (z :: zs) ++ ']' :: rest := by
          rw [hc1, List.cons_append]
          exact skipWs_not_ws (goodStart_not_ws hg1) _
        have ihz := ih (fun w hw => hy w (List.mem_cons_of_mem y hw))
          (List.cons_ne_nil z zs) f rest hzs
        rw [show dumpList (y :: z :: zs) = dumpChars y ++ ',' :: ' ' :: dumpList (z :: zs)
          from by simp [dumpList]]
        rw [parseItems.eq_def]
        simp only [List.append_assoc, List.cons_append]
        simp [h1, skipWs_not_ws (by decide : isWsChar ',' = false), skipWs_space,
          hskip, ihz]

theorem isWsChar_colon : isWsChar ':' = false := by decide

theorem isWsChar_rbrace : isWsChar rbrace = false := by decide

theorem parseMembers_dumpObjList :
    ∀ (gs : List (String × Json)),
      (∀ kv ∈ gs, ∀ fuel rest, fuelNeed kv.2 ≤ fuel → noDigitHead rest →
        parseV fuel (dumpChars kv.2 ++ rest) = some (kv.2, rest)) →
      gs ≠ [] →
      ∀ fuel rest, membersFuel gs ≤ fuel →
        parseMembers fuel (dumpObjList gs ++ rbrace :: rest) = some (gs, rest) := by
  intro gs
  induction gs with
  | nil => intro _ hne; exact absurd rfl hne
  | cons g gs ih =>
    obtain ⟨k, v⟩ := g
    intro hg hne fuel rest hfl
    cases fuel with
    | zero => simp [membersFuel] at hfl
    | succ f =>
      have hvv := hg (k, v) (List.mem_cons_self (k, v) gs)
      have hfv : fuelNeed v ≤ f := by simp [membersFuel] at hfl; omega
      cases gs with
      | nil =>
        have hv : parseV f (dumpChars v ++ rbrace :: rest) = some (v, rbrace :: rest) :=
          hvv f (rbrace :: rest) hfv (noDigitHead_cons _ isDigitChar_rbrace)
        have hsb := parseStringBody_escape k.data
          (':' :: ' ' :: (dumpChars v ++ rbrace :: rest))
        obtain ⟨c0, t0, hc0, hg0⟩ := dumpChars_head v
        have hskipv : skipWs (dumpChars v ++ rbrace :: rest)
            = dumpChars v ++ rbrace :: rest := by
          rw [hc0, List.cons_append]
          exact skipWs_not_ws (goodStart_not_ws hg0) _
        rw [show dumpObjList [(k, v)] = dumpItem k v from by simp [dumpObjList]]
        rw [show dumpItem k v ++ rbrace :: rest
            = '"' :: (escapeChars k.data ++ '"' :: (':' :: ' ' :: (dumpChars v ++ rbrace :: rest)))
          from by simp [dumpItem]]
        rw [parseMembers.eq_def]
        simp [hsb, skipWs_not_ws isWsChar_colon, skipWs_space, hskipv, hv,
          skipWs_not_ws isWsChar_rbrace, (by decide : ¬(rbrace = ','))]
      | cons g2 gs2 =>
        have hgs : membersFuel (g2 :: gs2) ≤ f := by
          simp [membersFuel] at hfl ⊢; omega
        have hv : parseV f (dumpChars v ++ ',' :: ' ' :: (dumpObjList (g2 :: gs2) ++ rbrace :: rest))
            = some (v, ',' :: ' ' :: (dumpObjList (g2 :: gs2) ++ rbrace :: rest)) :=
          hvv f _ hfv (noDigitHead_cons _ isDigitChar_comma)
        have hsb := parseStringBody_escape k.data
          (':' :: ' ' :: (dumpChars v ++ ',' :: ' ' :: (dumpObjList (g2 :: gs2) ++ rbrace :: rest)))
        obtain ⟨c0, t0, hc0, hg0⟩ := dumpChars_head v
        have hskipv : skipWs (dumpChars v ++ ',' :: ' ' :: (dumpObjList (g2 :: gs2) ++ rbrace :: rest))
            = dumpChars v ++ ',' :: ' ' :: (dumpObjList (g2 :: gs2) ++ rbrace :: rest) := by
          rw [hc0, List.cons_append]
          exact skipWs_not_ws (goodStart_not_ws hg0) _
        obtain ⟨t2, ht2⟩ := dumpObjList_head g2 gs2
        have hskipn : skipWs (dumpObjList (g2 :: gs2) ++ rbrace :: rest)
            = dumpObjList (g2 :: gs2) ++ rbrace :: rest := by
          rw [ht2, List.cons_append]
          exact skipWs_not_ws (by decide) _
        have ihz := ih (fun w hw => hg w (List.mem_cons_of_mem (k, v) hw))
          (List.cons_ne_nil g2 gs2) f rest hgs
        rw [show dumpObjList ((k, v) :: g2 :: gs2)
            = dumpItem k v ++ ',' :: ' ' :: dumpObjList (g2 :: gs2)
          from by simp [dumpObjList]]
        rw [show (dumpItem k v ++ ',' :: ' ' :: dumpObjList (g2 :: gs2)) ++ rbrace :: rest
            = '"' :: (escapeChars k.data ++ '"' ::
                (':' :: ' ' :: (dumpChars v ++ ',' :: ' ' :: (dumpObjList (g2 :: gs2) ++ rbrace :: rest))))
          from by simp [dumpItem]]
        rw [parseMembers.eq_def]
        simp [hsb, skipWs_not_ws isWsChar_colon, skipWs_space, hskipv, hv,
          skipWs_not_ws (by decide : isWsChar ',' = false), hskipn, ihz]

theorem parseV_dumpChars :
    ∀ v : Json, ∀ fuel rest, fuelNeed v ≤ fuel → noDigitHead rest →
      parseV fuel (dumpChars v ++ rest) = some (v, rest) := by
  refine Json.recAll (fun v => ∀ fuel rest, fuelNeed v ≤ fuel → noDigitHead rest →
      parseV fuel (dumpChars v ++ rest) = some (v, rest)) ?_ ?_ ?_ ?_ ?_ ?_
  · intro fuel rest hf hr
    exact parseV_dump_null fuel rest (by simp [fuelNeed] at hf; omega)
  · intro b fuel rest hf hr
    exact parseV_dump_bool b fuel rest (by simp [fuelNeed] at hf; omega)
  · intro n fuel rest hf hr
    exact parseV_dump_num n fuel rest (by simp [fuelNeed] at hf; omega) hr
  · intro s fuel rest hf hr
    exact parseV_dump_str s fuel rest (by simp [fuelNeed] at hf; omega)
  · intro xs hxs fuel rest hf hr
    cases xs with
    | nil =>
      simp [fuelNeed] at hf
      cases fuel with
      | zero => omega
      | succ f =>
        rw [show dumpChars (.arr []) ++ rest = '[' :: ']' :: rest
          from by simp [dumpChars, dumpList]]
        rw [parseV.eq_def]
        simp [skipWs_not_ws (by decide : isWsChar ']' = false),
          (by decide : ¬('[' = '"'))]
    | cons x xs2 =>
      simp only [fuelNeed] at hf
      cases fuel with
      | zero => omega
      | succ f =>
        have hif : itemsFuel (x :: xs2) ≤ f := by omega
        have hitems := parseItems_dumpList (x :: xs2) hxs (List.cons_ne_nil x xs2)
          f rest hif
        obtain ⟨c1, t1, hc1, hg1⟩ := dumpList_head x xs2
        have hfold : c1 :: (t1 ++ ']' :: rest) = dumpList (x :: xs2) ++ ']' :: rest := by
          rw [hc1, List.cons_append]
        have hi2 : parseItems f (c1 :: (t1 ++ ']' :: rest)) = some (x :: xs2, rest) := by
          rw [hfold]; exact hitems
        rw [show dumpChars (.arr (x :: xs2)) ++ rest = '[' :: (c1 :: (t1 ++ ']' :: rest))
          from by simp [dumpChars, hc1]]
        rw [parseV.eq_def]
        simp [skipWs_not_ws (goodStart_not_ws hg1), goodStart_ne_rbracket hg1,
          (by decide : ¬('[' = '"')), hi2]
  · intro fs hfs fuel rest hf hr
    cases fs with
    | nil =>
      simp [fuelNeed] at hf
      cases fuel with
      | zero => omega
      | succ f =>
        rw [show dumpChars (.obj []) ++ rest = lbrace :: rbrace :: rest
          from by simp [dumpChars, dumpObjList]]
        rw [parseV.eq_def]
        simp [skipWs_not_ws isWsChar_rbrace, (by decide : ¬(lbrace = '"')),
          (by decide : ¬(lbrace = '['))]
    | cons g gs2 =>
      simp only [fuelNeed] at hf
      cases fuel with
      | zero => omega
      | succ f =>
        have hif : membersFuel (g :: gs2) ≤ f := by omega
        have hmem := parseMembers_dumpObjList (g :: gs2) hfs (List.cons_ne_nil g gs2)
          f rest hif
        obtain ⟨t1, ht1⟩ := dumpObjList_head g gs2
        have hfold : '"' :: (t1 ++ rbrace :: rest) = dumpObjList (g :: gs2) ++ rbrace :: rest := by
          rw [ht1, List.cons_append]
        have hm2 : parseMembers f ('"' :: (t1 ++ rbrace :: rest)) = some (g :: gs2, rest) := by
          rw [hfold]; exact hmem
        rw [show dumpChars (.obj (g :: gs2)) ++ rest = lbrace :: ('"' :: (t1 ++ rbrace :: rest))
          from by simp [dumpChars, ht1]]
        rw [parseV.eq_def]
        simp [skipWs_not_ws (by decide : isWsChar '"' = false),
          (by decide : ¬(lbrace = '"')), (by decide : ¬(lbrace = '[')),
          (by decide : ¬('"' = rbrace)), hm2]

theorem natToChars_length_pos (n : Nat) : 1 ≤ (natToChars n).length := by
  obtain ⟨c, t, hc, _⟩ := natToChars_head n
  rw [hc]
  simp

theorem fuelNeed_le_length : ∀ v : Json, fuelNeed v ≤ (dumpChars v).length := by
  refine Json.recAll (fun v => fuelNeed v ≤ (dumpChars v).length) ?_ ?_ ?_ ?_ ?_ ?_
  · simp [fuelNeed, dumpChars]
  · intro b; cases b <;> simp [fuelNeed, dumpChars, boolChars]
  · intro n
    rcases lt_or_ge n 0 with hn | hn
    · have h1 := natToChars_length_pos n.natAbs
      simp [fuelNeed, dumpChars, intToChars, hn]
    · have h1 := natToChars_length_pos n.natAbs
      have hnn : ¬n < 0 := by omega
      simp [fuelNeed, dumpChars, intToChars, hnn]
      omega
  · intro s; simp [fuelNeed, dumpChars]
  · intro xs hxs
    have hlist : ∀ ys : List Json, (∀ y ∈ ys, fuelNeed y ≤ (dumpChars y).length) →
        itemsFuel ys ≤ (dumpList ys).length + 1 := by
      intro ys
      induction ys with
      | nil => intro _; simp [itemsFuel]
      | cons y ys ih =>
        intro hy
        have h1 := hy y (List.mem_cons_self y ys)
        cases ys with
        | nil => simp [itemsFuel, dumpList]; omega
        | cons z zs =>
          have h2 := ih (fun w hw => hy w (List.mem_cons_of_mem y hw))
          simp only [itemsFuel] at h2 ⊢
          rw [show dumpList (y :: z :: zs) = dumpChars y ++ ',' :: ' ' :: dumpList (z :: zs)
            from by simp [dumpList]]
          simp
          omega
    have := hlist xs hxs
    simp [fuelNeed, dumpChars]
    omega
  · intro fs hfs
    have hlist : ∀ gs : List (String × Json),
        (∀ kv ∈ gs, fuelNeed kv.2 ≤ (dumpChars kv.2).length) →
        membersFuel gs ≤ (dumpObjList gs).length + 1 := by
      intro gs
      induction gs with
      | nil => intro _; simp [membersFuel]
      | cons g gs ih =>
        intro hg
        obtain ⟨k, v⟩ := g
        have h1 : fuelNeed v ≤ (dumpChars v).length :=
          hg (k, v) (List.mem_cons_self (k, v) gs)
        cases gs with
        | nil =>
          simp only [membersFuel, dumpObjList]
          simp [dumpItem]
          omega
        | cons g2 gs2 =>
          have h2 := ih (fun w hw => hg w (List.mem_cons_of_mem (k, v) hw))
          simp only [membersFuel] at h1 h2 ⊢
          rw [show dumpObjList ((k, v) :: g2 :: gs2)
              = dumpItem k v ++ ',' :: ' ' :: dumpObjList (g2 :: gs2)
            from by simp [dumpObjList]]
          simp [dumpItem]
          omega
    have := hlist fs hfs
    simp [fuelNeed, dumpChars]
    omega

theorem json_loads_dumps (v : Json) : json_loads (json_dumps v) = some v := by
  obtain ⟨c0, t0, hc0, hg0⟩ := dumpChars_head v
  have hskip : skipWs (dumpChars v) = dumpChars v := by
    rw [hc0]; exact skipWs_not_ws (goodStart_not_ws hg0) _
  have hlen : fuelNeed v ≤ (dumpChars v).length + 1 :=
    le_trans (fuelNeed_le_length v) (by omega)
  have h := parseV_dumpChars v ((dumpChars v).length + 1) [] hlen noDigitHead_nil
  rw [List.append_nil] at h
  unfold json_loads json_dumps
  simp [hskip, h, skipWs]

theorem json_dumps_ne_empty (v : Json) : json_dumps v ≠ "" := by
  obtain ⟨c0, t0, hc0, _⟩ := dumpChars_head v
  intro h
  have h2 : dumpChars v = [] := congrArg String.data h
  rw [hc0] at h2
  exact absurd h2 (List.cons_ne_nil c0 t0)

theorem tryAll_none : ∀ l : List String, (∀ m ∈ l, json_loads m = none) →
    tryAll l = none := by
  intro l
  induction l with
  | nil => intro _; rfl
  | cons a l ih =>
    intro h
    simp [tryAll, h a (List.mem_cons_self a l),
      ih (fun m hm => h m (List.mem_cons_of_mem a hm))]

/-- C4: for every value of the modelled JSON fragment, applying
`extract_json_from_output` to its exact serialization recovers an equal
value: the serialization is nonempty, the whole-text parse (strategy 1,
tried first) succeeds on it, and that first success is returned. -/
theorem extract_json_from_output_roundtrip (v : Json) :
    extract_json_from_output (json_dumps v) = some v := by
  unfold extract_json_from_output
  rw [if_neg (json_dumps_ne_empty v), json_loads_dumps]

/-- C5: on input whose whole text fails to parse, whose fenced blocks all
fail to parse after stripping, and whose greedy brace/bracket candidates
all fail to parse, `extract_json_from_output` returns `none`.  The model is
a total function: per-strategy parse failures select the next strategy
rather than escaping as exceptions. -/
theorem extract_json_from_output_no_payload (s : String)
    (h1 : json_loads s = none)
    (h2 : ∀ m ∈ (fencedBlocks s).map pyStrip, json_loads m = none)
    (h3 : ∀ m ∈ greedyCandidates s, json_loads m = none) :
    extract_json_from_output s = none := by
  by_cases hs : s = ""
  · simp [extract_json_from_output, hs]
  · simp [extract_json_from_output, hs, h1, tryAll_none _ h2, tryAll_none _ h3]

/-- Witness for C5 at the concrete prose input
`"no structured data here."`. -/
theorem extract_json_from_output_no_payload_witness :
    extract_json_from_output "no structured data here." = none :=
  extract_json_from_output_no_payload "no structured data here." rfl
    (fun m hm => absurd hm (List.not_mem_nil m))
    (fun m hm => absurd hm (List.not_mem_nil m))

/-! ## Claim theorems about the invocation paths -/

/-- The per-status invariant of one invocation result, relative to the
effective timeout `t` whose duration the timeout message must name. -/
def statusInvariantOk (t : Nat) (r : CLIInvocationResult) : Bool :=
  match r.status with
  | .success => r.returncode == 0 && r.error == none
  | .failed => r.returncode != 0 && r.error != none
  | .timeout => (r.returncode == -1) && (r.error == some (timeoutMessage t))
  | .fallback => true

/-- C1: every `InvocationResult` returned by `invoke_sync` or `invoke_async`
satisfies the status invariants: Success ⇒ returncode 0 and null error;
Failed ⇒ nonzero returncode and non-null error; Timeout ⇒ sentinel
returncode -1 and an error message naming the effective timeout duration. -/
theorem invoke_status_invariants (o : CLIOrchestrator) (envS envA : ExecEnv)
    (prompt : String) (tool : Option String) (timeout : Option Nat)
    (wd : Option String) (ats : Option (List String)) :
    statusInvariantOk (orElseNat timeout o.default_timeout)
      (invoke_sync o envS prompt tool timeout wd ats) = true ∧
    statusInvariantOk (orElseNat timeout o.default_timeout)
      (invoke_async o envA prompt tool timeout wd ats).1 = true := by
  constructor
  · unfold invoke_sync
    dsimp only
    split
    · split
      · simp_all [statusInvariantOk]
      · simp_all [statusInvariantOk]
    · simp [statusInvariantOk]
  · unfold invoke_async
    dsimp only
    split
    · split
      · simp_all [statusInvariantOk]
      · simp_all [statusInvariantOk]
    · simp [statusInvariantOk]

/-- C2: on the primary-tool path, sandbox mode appends a bare `-p` and
moves the prompt to the stdin payload behind the `/sandbox` directive,
while normal mode appends `-p` followed by the prompt as the final
argument and sets no stdin payload; both modes share the same option
prefix, so the prompt is never a trailing argv element in sandbox mode and
always is in normal mode. -/
theorem build_command_sandbox (tool prompt : String) (model : Option String)
    (ats dirs : Option (List String)) (settings : Option String)
    (h : tool ≠ "opencode") :
    ∃ pre,
      build_command tool prompt model ats dirs settings true
        = (pre ++ ["-p"], some ("/sandbox\n" ++ prompt)) ∧
      build_command tool prompt model ats dirs settings false
        = (pre ++ ["-p", prompt], none) := by
  refine ⟨["claude"] ++ optFlag "--model" model ++ optFlag "--settings" settings
    ++ pairFlags "--add-dir" dirs ++ pairFlags "--allowedTools" ats, ?_, ?_⟩ <;>
    simp [build_command, h]

/-- Witness for C2 at a concrete prompt and empty option set. -/
theorem build_command_sandbox_witness :
    ∃ pre,
      build_command "claude" "do it" none none none none true
        = (pre ++ ["-p"], some ("/sandbox\n" ++ "do it")) ∧
      build_command "claude" "do it" none none none none false
        = (pre ++ ["-p", "do it"], none) :=
  build_command_sandbox "claude" "do it" none none none none (by decide)

/-- C9: the fallback-tool path of `build_command` returns exactly
`[fallback binary, "run"]`, then `--model M` only when a model is given,
then the prompt as the final argument, with no stdin payload; the
settings, add-dir, allowedTools and sandbox options are ignored by this
early-returning branch. -/
theorem build_command_opencode (prompt : String) (model : Option String)
    (ats dirs : Option (List String)) (settings : Option String)
    (enable_sandbox : Bool) :
    build_command "opencode" prompt model ats dirs settings enable_sandbox
      = (["opencode", "run"] ++ optFlag "--model" model ++ [prompt], none) := by
  simp [build_command]

/-- Environment for the C6 scenario: the process exits 0 with stdout `"4"`. -/
def env6 : ExecEnv := constEnv (.completed 0 "4" "" 5)

def c6result : CLIInvocationResult :=
  invoke_sync defaultOrchestrator env6 "What is 2+2?" none none none none

/-- C6 counterexample: with the default orchestrator, `invoke_sync` passes
the default allow-list, so the argument vector continues with
`--allowedTools` pairs rather than `-p` directly after the binary; and the
stdout `"4"` parses as the JSON literal 4, so `parsed_json` is not `None`. -/
theorem c6_claim_false :
    (c6result.command.take 3 == ["claude", "-p", "What is 2+2?"]) = false ∧
    c6result.parsed_json.isNone = false := by
  exact ⟨rfl, rfl⟩

/-- C6 amended: the argument vector is the primary binary, then
`--allowedTools` pairs for each default allowed tool, ending with `-p` and
the prompt as the final two arguments; a zero exit with stdout `"4"` yields
a Success result with output `"4"` and `parsed_json` equal to the parsed
JSON value 4. -/
theorem c6_amended :
    c6result.command
      = ["claude"] ++ DEFAULT_ALLOWED_TOOLS.flatMap (fun t => ["--allowedTools", t])
        ++ ["-p", "What is 2+2?"] ∧
    c6result.status = .success ∧ c6result.output = "4" ∧
    c6result.returncode = 0 ∧ c6result.parsed_json = some (.num 4) := by
  exact ⟨rfl, rfl, rfl, rfl, rfl⟩

/-- Environment for the C7 scenario: the process is still running with
partial stdout `"partial stdout"` when the timeout expires. -/
def env7 : ExecEnv := constEnv (.timedOut "partial stdout" "some stderr" 3)

def c7result : CLIInvocationResult :=
  invoke_sync defaultOrchestrator env7 "p" none none none none

/-- C7 counterexample: the underlying process produced `"partial stdout"`
before the timeout, but the Timeout result's output field is the empty
string — the timeout branch discards captured stdout instead of
preserving it. -/
theorem c7_claim_false :
    c7result.status = .timeout ∧ c7result.output = "" ∧
    (c7result.output == "partial stdout") = false := by
  exact ⟨rfl, rfl, rfl⟩

/-- C7 amended: failed invocations retain the captured stdout in `output`
(with stderr mapped to `error`), on both the synchronous and asynchronous
paths; timed-out invocations return an empty `output`, discarding any
partial stdout. -/
theorem output_retention_amended (o : CLIOrchestrator) (prompt : String)
    (tool : Option String) (timeout : Option Nat) (wd : Option String)
    (ats : Option (List String)) (rc : Int) (out err ps pe : String) (d : Nat)
    (hrc : rc ≠ 0) :
    (invoke_sync o (constEnv (.completed rc out err d)) prompt tool timeout wd ats).output = out ∧
    (invoke_sync o (constEnv (.completed rc out err d)) prompt tool timeout wd ats).error = some err ∧
    (invoke_sync o (constEnv (.timedOut ps pe d)) prompt tool timeout wd ats).output = "" ∧
    (invoke_async o (constEnv (.completed rc out err d)) prompt tool timeout wd ats).1.output = out ∧
    (invoke_async o (constEnv (.timedOut ps pe d)) prompt tool timeout wd ats).1.output = "" := by
  unfold invoke_sync invoke_async constEnv
  simp [hrc]

/-- Witness for the amended C7 at concrete inputs. -/
theorem output_retention_amended_witness :
    (invoke_sync defaultOrchestrator (constEnv (.completed 2 "boom" "bad" 1)) "p" none none none none).output = "boom" ∧
    (invoke_sync defaultOrchestrator (constEnv (.completed 2 "boom" "bad" 1)) "p" none none none none).error = some "bad" ∧
    (invoke_sync defaultOrchestrator (constEnv (.timedOut "part" "q" 1)) "p" none none none none).output = "" ∧
    (invoke_async defaultOrchestrator (constEnv (.completed 2 "boom" "bad" 1)) "p" none none none none).1.output = "boom" ∧
    (invoke_async defaultOrchestrator (constEnv (.timedOut "part" "q" 1)) "p" none none none none).1.output = "" :=
  output_retention_amended defaultOrchestrator "p" none none none none 2 "boom" "bad"
    "part" "q" 1 (by decide)

/-- Environment for the C8 scenario: the child exceeds its timeout. -/
def env8 : ExecEnv := constEnv (.timedOut "" "" 2)

/-- C8 (code-bug evidence): when the asynchronous invocation times out, the
result is classified Timeout, but the `except TimeoutError` handler
performs no `kill`/`terminate` and cancelling `communicate()` does not
stop the subprocess, so the child is still running when the result is
returned. -/
theorem invoke_async_timeout_leaves_child_running :
    (invoke_async defaultOrchestrator env8 "p" none none none none).2 = ChildState.running ∧
    (invoke_async defaultOrchestrator env8 "p" none none none none).1.status = .timeout := by
  exact ⟨rfl, rfl⟩

/-! ## Order-independence of the gather buffer -/

theorem fillBuffer_length {α : Type} (f : Nat → α) :
    ∀ (order : List Nat) (buf : List (Option α)),
      (fillBuffer f order buf).length = buf.length := by
  intro order
  induction order with
  | nil => intro buf; rfl
  | cons j rest ih =>
    intro buf
    rw [show fillBuffer f (j :: rest) buf
        = fillBuffer f rest (buf.set j (some (f j))) from rfl]
    rw [ih, List.length_set]

theorem fillBuffer_getElem?_not_mem {α : Type} (f : Nat → α) :
    ∀ (order : List Nat) (buf : List (Option α)) (i : Nat), i ∉ order →
      (fillBuffer f order buf)[i]? = buf[i]? := by
  intro order
  induction order with
  | nil => intro buf i _; rfl
  | cons j rest ih =>
    intro buf i hi
    have hij : j ≠ i := fun h => hi (h ▸ List.mem_cons_self j rest)
    have hir : i ∉ rest := fun h => hi (List.mem_cons_of_mem j h)
    rw [show fillBuffer f (j :: rest) buf
        = fillBuffer f rest (buf.set j (some (f j))) from rfl]
    rw [ih _ i hir, List.getElem?_set_ne hij]

theorem fillBuffer_getElem?_mem {α : Type} (f : Nat → α) :
    ∀ (order : List Nat) (buf : List (Option α)) (i : Nat), i ∈ order →
      i < buf.length → (fillBuffer f order buf)[i]? = some (some (f i)) := by
  intro order
  induction order with
  | nil => intro buf i hi; exact absurd hi (List.not_mem_nil i)
  | cons j rest ih =>
    intro buf i hi hlen
    rw [show fillBuffer f (j :: rest) buf
        = fillBuffer f rest (buf.set j (some (f j))) from rfl]
    by_cases hir : i ∈ rest
    · exact ih _ i hir (by rw [List.length_set]; exact hlen)
    · have hij : i = j := by
        rcases List.mem_cons.mp hi with h | h
        · exact h
        · exact absurd h hir
      subst hij
      rw [fillBuffer_getElem?_not_mem f rest _ i hir,
        List.getElem?_set_self hlen]

theorem fillBuffer_perm {α : Type} (f : Nat → α) (n : Nat) (order : List Nat)
    (hperm : order.Perm (List.range n)) :
    fillBuffer f order (List.replicate n none)
      = (List.range n).map (fun i => some (f i)) := by
  apply List.ext_getElem?
  intro i
  by_cases hi : i < n
  · have hmem : i ∈ order := hperm.mem_iff.mpr (List.mem_range.mpr hi)
    rw [fillBuffer_getElem?_mem f order _ i hmem (by rw [List.length_replicate]; omega)]
    rw [List.getElem?_map, List.getElem?_range hi]
    rfl
  · have h1 : ((List.range n).map (fun i => some (f i))).length ≤ i := by
      rw [List.length_map, List.length_range]
      omega
    have h2 : (fillBuffer f order (List.replicate n none)).length ≤ i := by
      rw [fillBuffer_length, List.length_replicate]
      omega
    rw [List.getElem?_eq_none h2, List.getElem?_eq_none h1]

theorem collectSome_map_some {α : Type} : ∀ xs : List α,
    collectSome (xs.map some) = some xs := by
  intro xs
  induction xs with
  | nil => rfl
  | cons x xs ih => simp [collectSome, ih]

theorem range_map_getD {α β : Type} (l : List α) (dflt : α) (g : α → β) :
    (List.range l.length).map (fun i => g (l.getD i dflt)) = l.map g := by
  induction l with
  | nil => rfl
  | cons a l ih =>
    rw [List.length_cons, List.range_succ_eq_map, List.map_cons, List.map_map]
    have hcomp : ((fun i => g ((a :: l).getD i dflt)) ∘ Nat.succ)
        = (fun i => g (l.getD i dflt)) := by
      funext i
      rfl
    rw [hcomp, ih]
    rfl

/-- C3: for every environment, prompt list, concurrency cap of at least 1,
and completion order that is a permutation of the task indices,
`invoke_parallel` returns exactly one result per input prompt,
positionally aligned: the result at index i is `invoke_async` applied to
prompt i.  The completion order does not influence the result list, and a
failure or timeout recorded for one prompt leaves every other slot's
result untouched (each slot is written only by its own task). -/
theorem invoke_parallel_aligned (o : CLIOrchestrator) (env : ExecEnv)
    (prompts : List String) (N : Nat) (order : List Nat)
    (hN : 1 ≤ N) (hperm : order.Perm (List.range prompts.length)) :
    invoke_parallel o env prompts N order
      = some (prompts.map (fun p => asyncResult o env p)) := by
  unfold invoke_parallel
  rw [if_neg (by omega)]
  rw [fillBuffer_perm _ _ _ hperm]
  have hr : (List.range prompts.length).map
      (fun i => some (asyncResult o env (prompts.getD i "")))
      = ((List.range prompts.length).map
          (fun i => asyncResult o env (prompts.getD i ""))).map some := by
    rw [List.map_map]
    rfl
  rw [hr, range_map_getD prompts "" (fun p => asyncResult o env p),
    collectSome_map_some]

/-- Environment for the C3 witness: every process exits 0 with stdout
`"ok"`. -/
def env3 : ExecEnv := constEnv (.completed 0 "ok" "" 1)

/-- Witness for C3: three prompts, sequential cap 1, completion order
2, 0, 1. -/
theorem invoke_parallel_aligned_witness :
    invoke_parallel defaultOrchestrator env3 ["A", "B", "C"] 1 [2, 0, 1]
      = some (["A", "B", "C"].map (fun p => asyncResult defaultOrchestrator env3 p)) :=
  invoke_parallel_aligned defaultOrchestrator env3 ["A", "B", "C"] 1 [2, 0, 1]
    (by decide) (by decide)

/-- A result took the fallback path: either the flag is set or the status
is the (dead) Fallback variant. -/
def resultUsesFallback (r : CLIInvocationResult) : Bool :=
  r.fallback_used ||
    (match r.status with
     | InvocationStatus.fallback => true
     | _ => false)

theorem mem_collectSome {α : Type} :
    ∀ (l : List (Option α)) (xs : List α), collectSome l = some xs →
      ∀ x ∈ xs, some x ∈ l := by
  intro l
  induction l with
  | nil =>
    intro xs h x hx
    simp [collectSome] at h
    subst h
    simp at hx
  | cons a l ih =>
    cases a with
    | none => intro xs h; simp [collectSome] at h
    | some b =>
      intro xs h x hx
      simp only [collectSome] at h
      cases hcl : collectSome l with
      | none => rw [hcl] at h; simp at h
      | some ys =>
        rw [hcl] at h
        simp at h
        subst h
        rcases List.mem_cons.mp hx with h2 | h2
        · subst h2; exact List.mem_cons_self _ _
        · exact List.mem_cons_of_mem _ (ih ys hcl x h2)

theorem mem_fillBuffer {α : Type} (f : Nat → α) :
    ∀ (order : List Nat) (buf : List (Option α)) (x : Option α),
      x ∈ fillBuffer f order buf → x ∈ buf ∨ ∃ i, x = some (f i) := by
  intro order
  induction order with
  | nil => intro buf x hx; exact Or.inl hx
  | cons j rest ih =>
    intro buf x hx
    rcases ih _ x hx with hset | hsome
    · rcases List.mem_or_eq_of_mem_set hset with h | h
      · exact Or.inl h
      · exact Or.inr ⟨j, h⟩
    · exact Or.inr hsome

/-- C10: no invocation path ever dispatches to the fallback tool — every
result of `invoke_sync`, `invoke_async` and `invoke_parallel` has
`fallback_used = false` and a status among Success/Failed/Timeout (never
the Fallback variant), although the configuration carries a fallback
identifier and the status enumeration carries the variant. -/
theorem no_fallback_dispatch (o : CLIOrchestrator) (envS envA envP : ExecEnv)
    (prompt : String) (tool : Option String) (timeout : Option Nat)
    (wd : Option String) (ats : Option (List String))
    (prompts : List String) (N : Nat) (order : List Nat) :
    resultUsesFallback (invoke_sync o envS prompt tool timeout wd ats) = false ∧
    resultUsesFallback (invoke_async o envA prompt tool timeout wd ats).1 = false ∧
    ((invoke_parallel o envP prompts N order).getD []).all
      (fun r => !resultUsesFallback r) = true := by
  have hasync : ∀ (env : ExecEnv) (p : String) (t : Option String)
      (ti : Option Nat) (w : Option String) (a : Option (List String)),
      resultUsesFallback (invoke_async o env p t ti w a).1 = false := by
    intro env p t ti w a
    unfold invoke_async
    dsimp only
    split
    · split <;> simp [resultUsesFallback]
    · simp [resultUsesFallback]
  refine ⟨?_, hasync envA prompt tool timeout wd ats, ?_⟩
  · unfold invoke_sync
    dsimp only
    split
    · split <;> simp [resultUsesFallback]
    · simp [resultUsesFallback]
  · by_cases hN : N = 0
    · simp [invoke_parallel, hN]
    · unfold invoke_parallel
      rw [if_neg hN]
      cases hcs : collectSome (fillBuffer
          (fun i => asyncResult o envP (prompts.getD i ""))
          order (List.replicate prompts.length none)) with
      | none => simp
      | some rs =>
        simp only [Option.getD_some]
        rw [List.all_eq_true]
        intro r hr
        have h1 := mem_collectSome _ rs hcs r hr
        rcases mem_fillBuffer _ _ _ _ h1 with hin | ⟨i, hi⟩
        · exact absurd (List.eq_of_mem_replicate hin) (by simp)
        · have h2 : r = asyncResult o envP (prompts.getD i "") := by
            injection hi
          rw [h2]
          simp [asyncResult, hasync]
